import Mathlib

/-!
Verification development for the chat-ingestion and dispatch core of
`twitchplaysgui.py` (a "Twitch chat to keyboard/mouse" GUI tool).

The Python source is shallowly embedded: byte strings become `List Nat`,
wall-clock times and rates become `ℚ`, socket reads become an explicit
event list, and the thread-pool dispatch becomes a pure pass over the
released messages that tracks the active-task count.  Exceptions are
values (`Option ε`).  Network sends and `print` logging are side effects
with no bearing on the verified state and are not modelled.
-/

/-! ## Bytes and ASCII case folding

Python's `str.lower()` applied to the decoded message text; the chat
pipeline in the source only relies on ASCII case folding. -/

def asciiLower (l : List Nat) : List Nat :=
  l.map (fun c => if 65 ≤ c ∧ c ≤ 90 then c + 32 else c)

/-! ## Rate-limited queue (`f_mainLoop`, lines 1276-1303)

`enqueueStep` models
  `l_messageQueue += l_newMessages; l_messageQueue = l_messageQueue[-G_MAX_QUEUE_LENGTH:]`
(executed only when `l_newMessages` is non-empty), and `drainTick` models
the release computation
  `r = 1 if G_MESSAGE_RATE == 0 else (time.time() - last_time) / G_MESSAGE_RATE`
  `n = int(r * len(l_messageQueue)); if n > 0: ... l_messageQueue[0:n] ...`.
`pyInt` is Python's `int()` truncation toward zero and `pySliceLast n l`
is Python's `l[-n:]` (which is the whole list when `n = 0`). -/

def pyInt (q : ℚ) : ℤ :=
  if 0 ≤ q then ⌊q⌋ else -⌊-q⌋

def pySliceLast (n : ℕ) (l : List α) : List α :=
  if n = 0 then l else l.drop (l.length - n)

def enqueueStep (maxLen : ℕ) (queue newMsgs : List α) : List α :=
  if newMsgs.isEmpty then queue else pySliceLast maxLen (queue ++ newMsgs)

structure QueueState (α : Type) where
  queue : List α
  lastTime : ℚ
deriving DecidableEq

def drainTick (rate now : ℚ) (s : QueueState α) : List α × QueueState α :=
  if s.queue.isEmpty then
    ([], ⟨s.queue, now⟩)
  else
    let r : ℚ := if rate = 0 then 1 else (now - s.lastTime) / rate
    let n : ℤ := pyInt (r * s.queue.length)
    if 0 < n then
      (s.queue.take n.toNat, ⟨s.queue.drop n.toNat, now⟩)
    else
      ([], s)

/-! ## Dispatcher (`f_mainLoop`, lines 1316-1327)

One dispatch pass over the messages released this tick.  `active` is the
current size of `l_activeTasks`; the source guard is
  `if len(l_activeTasks) <= G_MAX_WORKERS: ... submit ... else: warn`.
The result is (final active count, dispatched messages, dropped messages). -/

def dispatchPass (cap : ℕ) : ℕ → List α → ℕ × List α × List α
  | active, [] => (active, [], [])
  | active, m :: ms =>
    if active ≤ cap then
      let r := dispatchPass cap (active + 1) ms
      (r.1, m :: r.2.1, r.2.2)
    else
      let r := dispatchPass cap active ms
      (r.1, r.2.1, m :: r.2.2)

/-! ## Frames and chat events

A `Frame` is one parsed protocol line as produced by the regular
expression in `Twitch.f_receiveAndParseData` (lines 888-894): `name` is
match group 1 (default `b''`), `command` group 2, `params` group 3 split
on single spaces, `trailing` group 4 (default `b''`).  A `ChatMsg` is
the dictionary `{'username': ..., 'message': ...}` built in
`Twitch.f_twitchReceiveMessages` (lines 950-954). -/

structure Frame where
  name : List Nat
  command : List Nat
  params : List (List Nat)
  trailing : List Nat
deriving DecidableEq

structure ChatMsg where
  username : List Nat
  message : List Nat
deriving DecidableEq

/-- The bytes of `'PRIVMSG'`. -/
def privmsgBytes : List Nat := [80, 82, 73, 86, 77, 83, 71]

/-- The bytes of `'001'`, the login-success numeric. -/
def loginOkBytes : List Nat := [48, 48, 49]

/-! ## Protocol classifier (`Twitch.f_twitchReceiveMessages`, lines 942-996)

The loop over the parsed frames: a `PRIVMSG` frame appends a `ChatMsg`
(username and trailing text taken verbatim from the frame), `001` marks
the login as confirmed, and every other command only performs protocol
side effects (`PONG`/`JOIN` sends, logging) that carry no state relevant
here.  Returns the collected chat messages and the updated login flag. -/

def classifyFrames (login_ok : Bool) : List Frame → List ChatMsg × Bool
  | [] => ([], login_ok)
  | f :: fs =>
    if f.command = privmsgBytes then
      let r := classifyFrames login_ok fs
      (⟨f.name, f.trailing⟩ :: r.1, r.2)
    else if f.command = loginOkBytes then
      classifyFrames true fs
    else
      classifyFrames login_ok fs

/-! ## Commands and per-message dispatch

`TwitchCommand.f_check` (lines 655-667) compares the registered chat
text with the passed-in message and, on an exact match, runs each action
in order.  Executing an action (`ComputerAction.f_process`, an input
injection) may raise; `exec a = some e` models action `a` raising `e`.
`f_handleMessage` (lines 1132-1152) lower-cases the message, runs every
command's check inside one `try`, and catches any exception, logging it;
the result is ((executed actions, caught-and-logged exception),
exception propagated out of the task). -/

structure TwitchCommand (α : Type) where
  chatText : List Nat
  actionList : List α
deriving DecidableEq

def runActions (exec : α → Option ε) : List α → List α × Option ε
  | [] => ([], none)
  | a :: as =>
    match exec a with
    | some e => ([a], some e)
    | none =>
      let r := runActions exec as
      (a :: r.1, r.2)

def f_check (exec : α → Option ε) (c : TwitchCommand α) (p_message : List Nat) :
    List α × Option ε :=
  if c.chatText = p_message then runActions exec c.actionList else ([], none)

def tryBody (exec : α → Option ε) (msg : List Nat) :
    List (TwitchCommand α) → List α × Option ε
  | [] => ([], none)
  | c :: cs =>
    match f_check exec c msg with
    | (tr, some e) => (tr, some e)
    | (tr, none) =>
      let r := tryBody exec msg cs
      (tr ++ r.1, r.2)

def f_handleMessage (exec : α → Option ε) (cmds : List (TwitchCommand α)) (m : ChatMsg) :
    (List α × Option ε) × Option ε :=
  let body := tryBody exec (asciiLower m.message) cmds
  ((body.1, body.2), none)

/-- Modelled from the spec's words for comparison ("Command matching is
an exact, case-normalized string match"): the actions of every command
whose registered text equals the (case-normalized) message, in order. -/
def matchedActions (msg : List Nat) : List (TwitchCommand α) → List α
  | [] => []
  | c :: cs => (if c.chatText = msg then c.actionList else []) ++ matchedActions msg cs

/-! ## Socket reads (`Twitch.f_receiveAndParseData`, lines 853-867)

One poll's `recv` loop, driven by an explicit list of read events:
`timeout` is `socket.timeout` (break — all currently available data has
been drained), `errored` is any other exception (log, reconnect after
1 second, return `[]`), and `data bs` is a successful `recv` — with
`bs = []` meaning the peer closed the connection (log, reconnect after
5 seconds, return `[]`).  Returns the accumulated buffer and the
reconnect delay when one is scheduled (`f_reconnect` sleeps the delay
and re-runs `f_connect`, which clears the pending partial buffer and the
login flag). -/

inductive RecvEvent where
  | timeout : RecvEvent
  | errored : RecvEvent
  | data : List Nat → RecvEvent
deriving DecidableEq

def f_receiveLoop : List RecvEvent → List Nat × Option ℕ
  | [] => ([], none)
  | RecvEvent.timeout :: _ => ([], none)
  | RecvEvent.errored :: _ => ([], some 1)
  | RecvEvent.data bs :: rest =>
    if bs.isEmpty then ([], some 5)
    else
      match f_receiveLoop rest with
      | (buf, none) => (bs ++ buf, none)
      | (_, some d) => ([], some d)

/-- `RecvEvent.data bs` with non-empty `bs`. -/
def RecvEvent.isChunk : RecvEvent → Bool
  | RecvEvent.data bs => !bs.isEmpty
  | _ => false

/-! ## Frame parser (`Twitch.f_receiveAndParseData`, lines 872-921)

The source scans the buffer with the multiline regular expression
compiled in `f_connect` (line 794):

  `^(?::(?:([^ !\r\n]+)![^ \r\n]*|[^ \r\n]*) )?([^ \r\n]+)`
  `(?: ([^:\r\n]*))?(?: :([^\r\n]*))?\r\n`

Every character class excludes CR and LF, so a match starting at a
line-start position `p` runs exactly to the first CR/LF after `p`, which
must be a CR immediately followed by an LF; `splitLine` peels that line
off.  `matchLine` is the line-level match with the engine's backtracking
resolved deterministically for this pattern:

* the optional `:sender ` prefix can only span up to the first space;
  if the remainder then fails, the engine retries without the prefix
  (`matchCmdGroups` on the whole line);
* group 1 (the sender) requires a `!` at index ≥ 1 of the prefix word;
* the command is the maximal space-free run (nonempty);
* after the command, either nothing, or a space followed by the
  parameters (no colon) up to the end, or up to ` :` at the first colon,
  with the trailing text after that colon (`matchRest`); a colon not
  preceded by a space makes the whole line fail to match.

`scanAux` is `finditer`: try a match at every line-start position
(position 0 or right after an LF), advance one byte on failure, resume
after each match; it returns the frames in stream order together with
the bytes after the last match (the whole buffer when there is none).
`parseStep` is then the buffer-handling part of
`f_receiveAndParseData`: prepend the pending partial bytes, collect all
matches, and retain the bytes after the last complete frame (the entire
buffer when no frame matched) as the new pending partial buffer. -/

def splitLine : List Nat → Option (List Nat × List Nat)
  | [] => none
  | c :: rest =>
    if c = 13 then
      if rest.head? = some 10 then some ([], rest.tail) else none
    else if c = 10 then none
    else
      match splitLine rest with
      | some (l, r) => some (c :: l, r)
      | none => none

def matchRest (r2 : List Nat) : Option (Option (List Nat) × Option (List Nat)) :=
  match r2 with
  | [] => some (none, none)
  | c :: u =>
    if c ≠ 32 then none
    else
      let j := u.findIdx (· == 58)
      if j = u.length then some (some u, none)
      else if j = 0 then some (none, some (u.drop 1))
      else if u.getD (j - 1) 0 = 32 then
        some (some (u.take (j - 1)), some (u.drop (j + 1)))
      else none

def matchCmdGroups (s : List Nat) :
    Option (List Nat × Option (List Nat) × Option (List Nat)) :=
  let cmdEnd := s.findIdx (· == 32)
  if cmdEnd = 0 then none
  else
    match matchRest (s.drop cmdEnd) with
    | some (p, t) => some (s.take cmdEnd, p, t)
    | none => none

/-- Build a `Frame` from the four match groups with the source's
defaults: absent groups become `b''` and the parameters are split on
single spaces (so an absent or empty parameter group yields `[b'']`,
exactly like Python's `(m.group(3) or b'').split(b' ')`). -/
def mkFrame (name : Option (List Nat)) (cmd : List Nat)
    (p t : Option (List Nat)) : Frame :=
  ⟨name.getD [], cmd, (p.getD []).splitOn 32, t.getD []⟩

def matchLine (s : List Nat) : Option Frame :=
  if s.head? = some 58 ∧ 32 ∈ s then
    let t := s.findIdx (· == 32)
    let inner := (s.take t).drop 1
    let rest := s.drop (t + 1)
    let j := inner.findIdx (· == 33)
    let name : Option (List Nat) :=
      if 0 < j ∧ j < inner.length then some (inner.take j) else none
    match matchCmdGroups rest with
    | some (c, p, tr) => some (mkFrame name c p tr)
    | none =>
      match matchCmdGroups s with
      | some (c, p, tr) => some (mkFrame none c p tr)
      | none => none
  else
    match matchCmdGroups s with
    | some (c, p, tr) => some (mkFrame none c p tr)
    | none => none

def tryFrame (buf : List Nat) : Option (Frame × List Nat) :=
  match splitLine buf with
  | none => none
  | some (l, rest) =>
    match matchLine l with
    | some f => some (f, rest)
    | none => none

def scanAux : Nat → List Nat → Bool → List Frame × List Nat
  | _, [], _ => ([], [])
  | 0, buf, _ => ([], buf)
  | fuel + 1, c :: rest, atStart =>
    if atStart then
      match tryFrame (c :: rest) with
      | some (f, after) =>
        let r := scanAux fuel after true
        (f :: r.1, if r.1.isEmpty then after else r.2)
      | none =>
        let r := scanAux fuel rest (c == 10)
        if r.1.isEmpty then ([], c :: rest) else r
    else
      let r := scanAux fuel rest (c == 10)
      if r.1.isEmpty then ([], c :: rest) else r

def findFrames (buf : List Nat) : List Frame × List Nat :=
  scanAux buf.length buf true

def parseStep (pending buffer : List Nat) : List Frame × List Nat :=
  if buffer.isEmpty then ([], pending)
  else
    let buf := pending ++ buffer
    let r := findFrames buf
    if r.1.isEmpty then ([], buf) else r

/-- `Twitch.f_receiveAndParseData` in full: run the `recv` loop, and on a
read fault return `[]` with the pending buffer cleared by the reconnect's
`f_connect` and the scheduled delay; otherwise parse the drained bytes.
Returns (frames, new pending partial buffer, reconnect delay). -/
def f_receiveAndParseData (pending : List Nat) (evs : List RecvEvent) :
    List Frame × List Nat × Option ℕ :=
  match f_receiveLoop evs with
  | (_, some d) => ([], [], some d)
  | (buf, none) =>
    let r := parseStep pending buf
    (r.1, r.2, none)

/-! ## Receive pass with login watchdog
(`Twitch.f_twitchReceiveMessages`, lines 935-1011) -/

structure TwitchState where
  pending : List Nat
  login_ok : Bool
  login_timestamp : ℚ
deriving DecidableEq

/-- One receive pass: parse, classify (collecting `PRIVMSG` chat
messages and updating the login flag), then the watchdog: if the login
is still unconfirmed and more than `limit` seconds have passed since the
connect attempt, reconnect immediately (delay 0) and return `[]`,
discarding this pass's messages.  A reconnect — from the read loop or
from the watchdog — leaves the state `f_connect` produces: empty pending
buffer, login flag down, timestamp refreshed. -/
def f_twitchReceiveMessages (limit : ℚ) (st : TwitchState) (evs : List RecvEvent)
    (now : ℚ) : List ChatMsg × TwitchState :=
  match f_receiveAndParseData st.pending evs with
  | (_, _, some _) => ([], ⟨[], false, now⟩)
  | (frames, pending2, none) =>
    let r := classifyFrames st.login_ok frames
    if ¬r.2 ∧ now - st.login_timestamp > limit then ([], ⟨[], false, now⟩)
    else (r.1, ⟨pending2, r.2, st.login_timestamp⟩)

/-! ## Legality of byte streams, for the split-invariance theorem -/

/-- No CR or LF byte. -/
def noCRLF (l : List Nat) : Prop := ∀ c ∈ l, c ≠ 13 ∧ c ≠ 10

/-- A legal frame line: CR/LF-free content the line pattern matches. -/
def legalLine (l : List Nat) : Prop := noCRLF l ∧ (matchLine l).isSome = true

instance (l : List Nat) : Decidable (noCRLF l) :=
  inferInstanceAs (Decidable (∀ c ∈ l, c ≠ 13 ∧ c ≠ 10))

instance (l : List Nat) : Decidable (legalLine l) :=
  inferInstanceAs (Decidable (noCRLF l ∧ (matchLine l).isSome = true))

/-- CRLF-terminate and concatenate a list of frame lines. -/
def render : List (List Nat) → List Nat
  | [] => []
  | l :: ls => l ++ 13 :: 10 :: render ls

/-- The frame a legal line parses to. -/
def frameOf (l : List Nat) : Frame := (matchLine l).getD ⟨[], [], [], []⟩

/-- The line bytes of `:a!b PRIVMSG #c :hi` (no CRLF). -/
def privLineBytes : List Nat :=
  [58, 97, 33, 98, 32, 80, 82, 73, 86, 77, 83, 71, 32, 35, 99, 32, 58, 104, 105]

/-- The first five bytes of `privLineBytes` (`:a!b `), a chunk cut in
the middle of the frame. -/
def privPre : List Nat := [58, 97, 33, 98, 32]

/-- The rest of the frame of `privLineBytes`, CRLF included. -/
def privSuf : List Nat :=
  [80, 82, 73, 86, 77, 83, 71, 32, 35, 99, 32, 58, 104, 105, 13, 10]

/-! ## Queue and dispatcher lemmas -/

theorem pyInt_nonneg_eq_floor (q : ℚ) (h : 0 ≤ q) : pyInt q = ⌊q⌋ := by
  simp [pyInt, h]

theorem drainTick_nonempty (rate now : ℚ) (s : QueueState α) (hq : s.queue ≠ []) :
    drainTick rate now s =
      (let r : ℚ := if rate = 0 then 1 else (now - s.lastTime) / rate
       let n : ℤ := pyInt (r * s.queue.length)
       if 0 < n then
         (s.queue.take n.toNat, ⟨s.queue.drop n.toNat, now⟩)
       else
         ([], s)) := by
  have : s.queue.isEmpty = false := by
    cases hqq : s.queue with
    | nil => exact absurd hqq hq
    | cons a l => rfl
  simp [drainTick, this]

/-- C2 counterexample: with rate 1, backlog [0, 1] (length 2) and elapsed
time 2 since the last drain, the claimed release count
`floor((E/R) * L) = 4` differs from the 2 entries the code releases
(Python's slice `l[0:4]` caps at the list's length). -/
theorem drainTick_count_cex :
    (drainTick 1 2 ⟨[(0 : ℕ), 1], 0⟩).1.length = 2
    ∧ (pyInt (((2 : ℚ) - 0) / 1 * ([(0 : ℕ), 1].length : ℚ))).toNat = 4
    ∧ (2 : ℕ) ≠ 4 := by
  refine ⟨?_, ?_, by omega⟩
  · norm_num [drainTick, pyInt]
  · norm_num [pyInt]
    decide

/-- C2 (amended): with rate `R > 0`, a non-empty backlog of length `L`
and elapsed time `E ≥ 0` since the last drain, one drain tick releases
exactly `min (floor((E/R) * L)) L` entries, taken oldest-first from the
front of the backlog, and the last-drain timestamp becomes `now` exactly
when that count is nonzero; when the backlog is empty the tick records
`now` as the last-drain timestamp and releases nothing. -/
theorem drainTick_release_spec :
    (∀ (α : Type) (rate now : ℚ) (s : QueueState α),
        0 < rate → s.queue ≠ [] → 0 ≤ now - s.lastTime →
        (drainTick rate now s).1
            = s.queue.take (pyInt ((now - s.lastTime) / rate * s.queue.length)).toNat
          ∧ (drainTick rate now s).1.length
            = min (pyInt ((now - s.lastTime) / rate * s.queue.length)).toNat s.queue.length
          ∧ (drainTick rate now s).2.queue
            = s.queue.drop (pyInt ((now - s.lastTime) / rate * s.queue.length)).toNat
          ∧ (drainTick rate now s).2.lastTime
            = (if (pyInt ((now - s.lastTime) / rate * s.queue.length)).toNat ≠ 0 then now
               else s.lastTime))
    ∧ (∀ (α : Type) (rate now : ℚ) (s : QueueState α),
        s.queue = [] → drainTick rate now s = ([], ⟨[], now⟩)) := by
  constructor
  · intro α rate now s hr hq hE
    have hrne : rate ≠ 0 := ne_of_gt hr
    have hq0 : (0 : ℚ) ≤ (now - s.lastTime) / rate * s.queue.length :=
      mul_nonneg (div_nonneg hE (le_of_lt hr)) (Nat.cast_nonneg _)
    have hfl : pyInt ((now - s.lastTime) / rate * s.queue.length)
        = ⌊(now - s.lastTime) / rate * s.queue.length⌋ := pyInt_nonneg_eq_floor _ hq0
    have hnn : 0 ≤ pyInt ((now - s.lastTime) / rate * s.queue.length) := by
      rw [hfl]; exact Int.floor_nonneg.mpr hq0
    rw [drainTick_nonempty rate now s hq]
    simp only [hrne, if_false]
    by_cases hpos : 0 < pyInt ((now - s.lastTime) / rate * s.queue.length)
    · have htn : (pyInt ((now - s.lastTime) / rate * s.queue.length)).toNat ≠ 0 := by
        omega
      simp [hpos, htn, List.length_take]
    · have hz : pyInt ((now - s.lastTime) / rate * s.queue.length) = 0 := le_antisymm
        (not_lt.mp hpos) hnn
      simp [hpos, hz]
  · intro α rate now s hq
    simp [drainTick, hq]

/-- C2 witness: rate 2, elapsed 1, backlog [0, 1, 2, 3]: the tick
releases the first `min (floor((1/2)*4)) 4 = 2` entries; an empty
backlog just records the time. -/
theorem drainTick_release_spec_wit :
    (drainTick 2 1 ⟨[(0 : ℕ), 1, 2, 3], 0⟩).1 = [0, 1]
    ∧ (drainTick 2 1 ⟨[(0 : ℕ), 1, 2, 3], 0⟩).2.queue = [2, 3]
    ∧ drainTick 2 1 ⟨([] : List ℕ), 5⟩ = ([], ⟨[], 1⟩) := by
  have h := drainTick_release_spec
  obtain ⟨h1, h2, h3, h4⟩ := h.1 ℕ 2 1 ⟨[0, 1, 2, 3], 0⟩ (by norm_num) (by simp) (by norm_num)
  refine ⟨?_, ?_, h.2 ℕ 2 1 ⟨[], 5⟩ rfl⟩
  · rw [h1]
    norm_num [pyInt]
    decide
  · rw [h3]
    norm_num [pyInt]
    decide

/-- C10: for a non-empty backlog, when the elapsed time exceeds the
configured rate (so the computed release count `floor((E/R)*L)` is at
least the backlog length), the drain releases every backlog entry
exactly once in order, leaves the backlog empty, and records `now`;
the out-of-range count neither errors nor duplicates nor loses entries
(Python's `l[0:n]` and `del l[0:n]` cap at the length). -/
theorem drainTick_overshoot_safe (α : Type) (rate now : ℚ) (s : QueueState α)
    (hr : 0 < rate) (hq : s.queue ≠ []) (hE : rate < now - s.lastTime) :
    (drainTick rate now s).1 = s.queue
    ∧ (drainTick rate now s).2.queue = []
    ∧ (drainTick rate now s).2.lastTime = now := by
  have hrne : rate ≠ 0 := ne_of_gt hr
  have hlen : (0 : ℚ) < (s.queue.length : ℚ) := by
    exact_mod_cast List.length_pos.mpr hq
  have hr1 : (1 : ℚ) < (now - s.lastTime) / rate := (one_lt_div hr).mpr hE
  have hgt : (s.queue.length : ℚ) < (now - s.lastTime) / rate * s.queue.length :=
    (lt_mul_iff_one_lt_left hlen).mpr hr1
  have hq0 : (0 : ℚ) ≤ (now - s.lastTime) / rate * s.queue.length :=
    le_of_lt (lt_trans hlen hgt)
  have hfl : pyInt ((now - s.lastTime) / rate * s.queue.length)
      = ⌊(now - s.lastTime) / rate * s.queue.length⌋ := pyInt_nonneg_eq_floor _ hq0
  have hge : (s.queue.length : ℤ) ≤ pyInt ((now - s.lastTime) / rate * s.queue.length) := by
    rw [hfl]
    exact Int.le_floor.mpr (by exact_mod_cast le_of_lt hgt)
  have hgeN : s.queue.length ≤ (pyInt ((now - s.lastTime) / rate * s.queue.length)).toNat := by
    omega
  have hpos : 0 < pyInt ((now - s.lastTime) / rate * s.queue.length) := by
    have : 0 < (s.queue.length : ℤ) := by exact_mod_cast List.length_pos.mpr hq
    omega
  rw [drainTick_nonempty rate now s hq]
  simp only [hrne, if_false, hpos, if_true]
  exact ⟨List.take_of_length_le hgeN, List.drop_eq_nil_of_le hgeN, by trivial⟩

/-- C10 witness: rate 1, elapsed 3, backlog [5, 6]: the whole backlog is
released in order and the backlog is left empty. -/
theorem drainTick_overshoot_safe_wit :
    (drainTick 1 3 ⟨[(5 : ℕ), 6], 0⟩).1 = [5, 6]
    ∧ (drainTick 1 3 ⟨[(5 : ℕ), 6], 0⟩).2.queue = []
    ∧ (drainTick 1 3 ⟨[(5 : ℕ), 6], 0⟩).2.lastTime = 3 :=
  drainTick_overshoot_safe ℕ 1 3 ⟨[5, 6], 0⟩ (by norm_num) (by simp) (by norm_num)

/-- C3 counterexample: with worker cap 1 and three released messages, a
dispatch pass starting from an empty active set ends with 2 active
tasks, exceeding the cap (the source compares `len(l_activeTasks) <=
G_MAX_WORKERS`, so it submits one task beyond the cap). -/
theorem dispatchPass_cap_cex :
    (dispatchPass 1 0 [(0 : ℕ), 1, 2]).1 = 2
    ∧ ¬((dispatchPass 1 0 [(0 : ℕ), 1, 2]).1 ≤ 1) := by decide

/-- C3 (amended): at every dispatch pass the active task count never
exceeds the configured worker cap plus one (the source's guard uses
`<=`, admitting one task beyond the nominal cap); once the count has
exceeded the cap, every further ready message's dispatch is dropped for
that tick with a logged warning — not re-queued and without blocking the
pass — and the active count grows exactly by the number dispatched. -/
theorem dispatchPass_cap_spec (α : Type) (cap : ℕ) :
    ∀ (ms : List α) (active : ℕ), active ≤ cap + 1 →
      (dispatchPass cap active ms).1 ≤ cap + 1
      ∧ (active = cap + 1 → dispatchPass cap active ms = (active, [], ms))
      ∧ (dispatchPass cap active ms).1
          = active + (dispatchPass cap active ms).2.1.length := by
  intro ms
  induction ms with
  | nil =>
    intro active h
    exact ⟨h, fun _ => rfl, by simp [dispatchPass]⟩
  | cons m ms ih =>
    intro active h
    by_cases hc : active ≤ cap
    · have ih' := ih (active + 1) (by omega)
      refine ⟨?_, ?_, ?_⟩
      · simpa [dispatchPass, hc] using ih'.1
      · intro he; omega
      · have h3 := ih'.2.2
        simp only [dispatchPass, hc, if_true, List.length_cons]
        omega
    · have ih' := ih active h
      have hrw := ih'.2.1 (by omega)
      refine ⟨?_, ?_, ?_⟩
      · simpa [dispatchPass, hc] using ih'.1
      · intro _
        simp only [dispatchPass, hc, if_false, hrw]
      · simp only [dispatchPass, hc, if_false, hrw]
        simp

/-- C3 witness: cap 1: a pass from an empty active set stays within
cap + 1 = 2, and once the count is 2 a further message is dropped,
not dispatched. -/
theorem dispatchPass_cap_spec_wit :
    (dispatchPass 1 0 [(0 : ℕ), 1, 2]).1 ≤ 2
    ∧ dispatchPass 1 2 [(7 : ℕ)] = (2, [], [7]) :=
  ⟨(dispatchPass_cap_spec ℕ 1 [0, 1, 2] 0 (by omega)).1,
   (dispatchPass_cap_spec ℕ 1 [7] 2 (by omega)).2.1 rfl⟩

/-- C6: when the configured maximum backlog length `N` is positive and
smaller than the combined length of the old backlog plus the newly
arrived events, the enqueue step leaves a backlog of length exactly `N`
holding the `N` most recent entries in arrival order, the oldest excess
discarded from the front. -/
theorem enqueue_truncates (α : Type) (N : ℕ) (queue newMsgs : List α)
    (h0 : 0 < N) (hne : newMsgs ≠ []) (hL : N < (queue ++ newMsgs).length) :
    (enqueueStep N queue newMsgs).length = N
    ∧ enqueueStep N queue newMsgs
        = (queue ++ newMsgs).drop ((queue ++ newMsgs).length - N) := by
  have hni : newMsgs.isEmpty = false := by
    cases newMsgs with
    | nil => exact absurd rfl hne
    | cons a l => rfl
  have hN : N ≠ 0 := by omega
  have h' : N < queue.length + newMsgs.length := by simpa using hL
  constructor
  · simp [enqueueStep, pySliceLast, hni, hN]
    omega
  · simp [enqueueStep, pySliceLast, hni, hN]

/-- C6 witness: max length 2, backlog [1, 2, 3], new events [4, 5]: the
result is the last two entries [4, 5]. -/
theorem enqueue_truncates_wit :
    (enqueueStep 2 [(1 : ℕ), 2, 3] [4, 5]).length = 2
    ∧ enqueueStep 2 [(1 : ℕ), 2, 3] [4, 5] = [4, 5] := by
  have h := enqueue_truncates ℕ 2 [1, 2, 3] [4, 5] (by omega) (by simp) (by simp)
  exact ⟨h.1, by rw [h.2]; rfl⟩

/-! ## Classifier and dispatch theorems -/

theorem runActions_of_no_fail (α ε : Type) (l : List α) :
    runActions (fun _ => (none : Option ε)) l = (l, none) := by
  induction l with
  | nil => rfl
  | cons a as ih => simp [runActions, ih]

theorem tryBody_of_no_fail (α ε : Type) (msg : List Nat) (cmds : List (TwitchCommand α)) :
    tryBody (fun _ => (none : Option ε)) msg cmds = (matchedActions msg cmds, none) := by
  induction cmds with
  | nil => rfl
  | cons c cs ih =>
    by_cases hc : c.chatText = msg
    · simp [tryBody, f_check, hc, runActions_of_no_fail, ih, matchedActions]
    · simp [tryBody, f_check, hc, ih, matchedActions]

/-- The bytes of `'!JUMP'`. -/
def jumpUpper : List Nat := [33, 74, 85, 77, 80]

/-- The bytes of `'!jump'`. -/
def jumpLower : List Nat := [33, 106, 117, 109, 112]

/-- The bytes of `'Viewer1'`. -/
def viewer1Caps : List Nat := [86, 105, 101, 119, 101, 114, 49]

/-- C4 counterexample: a `PRIVMSG` frame from sender `Viewer1` with
trailing text `!JUMP` is emitted into the queue with username and
message taken verbatim — neither is lower-cased at emission, refuting
"both already lower-cased at the moment of emission into the queue"
(lower-casing only happens later, in `f_handleMessage`). -/
theorem classify_lowercase_cex :
    (classifyFrames false [⟨viewer1Caps, privmsgBytes, [[]], jumpUpper⟩]).1
      = [⟨viewer1Caps, jumpUpper⟩]
    ∧ jumpUpper ≠ asciiLower jumpUpper
    ∧ viewer1Caps ≠ asciiLower viewer1Caps := by decide

/-- C4 (amended): for every parsed frame whose command token is
`PRIVMSG`, the classifier emits a `ChatMsg` whose username equals the
frame's sender and whose message equals the frame's trailing text, both
verbatim (in stream order); lower-casing is applied only later, at
dispatch time, when `f_handleMessage` lower-cases the message before
command matching. -/
theorem classify_emit_verbatim :
    (∀ (ok : Bool) (frames : List Frame),
        (classifyFrames ok frames).1
          = (frames.filter (fun f => f.command = privmsgBytes)).map
              (fun f => ⟨f.name, f.trailing⟩))
    ∧ (∀ (α ε : Type) (exec : α → Option ε) (cmds : List (TwitchCommand α)) (m : ChatMsg),
        (f_handleMessage exec cmds m).1.1 = (tryBody exec (asciiLower m.message) cmds).1) := by
  constructor
  · intro ok frames
    induction frames generalizing ok with
    | nil => rfl
    | cons f fs ih =>
      by_cases h1 : f.command = privmsgBytes
      · simp [classifyFrames, h1, ih]
      · have hne : loginOkBytes ≠ privmsgBytes := by decide
        by_cases h2 : f.command = loginOkBytes
        · simp [classifyFrames, h1, h2, hne, ih]
        · simp [classifyFrames, h1, h2, ih]
  · intro α ε exec cmds m
    rfl

/-- C5: a registered command's actions are executed exactly when the
registered chat text equals the dispatched message lower-cased, in
registration order — an exact whole-string match, with no partial or
prefix matching; in particular a chat message with text `!JUMP` triggers
exactly one action execution of a command registered as `!jump` with a
single action. -/
theorem command_match_exact :
    (∀ (α ε : Type) (cmds : List (TwitchCommand α)) (m : ChatMsg),
        (f_handleMessage (fun _ => (none : Option ε)) cmds m).1.1
          = matchedActions (asciiLower m.message) cmds)
    ∧ (f_handleMessage (fun _ => (none : Option Unit))
          [⟨jumpLower, [(0 : ℕ)]⟩] ⟨viewer1Caps, jumpUpper⟩).1.1 = [0] := by
  constructor
  · intro α ε cmds m
    simp [f_handleMessage, tryBody_of_no_fail]
  · decide

/-- C7: for every dispatched message, any exception raised while looking
up or executing that message's commands and actions is caught inside the
per-message task and logged there: the task itself never propagates an
exception (to the scheduling loop or to the other in-flight tasks), and
whatever the body raised is exactly what gets caught and logged. -/
theorem handleMessage_isolates :
    ∀ (α ε : Type) (exec : α → Option ε) (cmds : List (TwitchCommand α)) (m : ChatMsg),
      (f_handleMessage exec cmds m).2 = none
      ∧ (∀ e, (tryBody exec (asciiLower m.message) cmds).2 = some e →
          (f_handleMessage exec cmds m).1.2 = some e) := by
  intro α ε exec cmds m
  refine ⟨rfl, ?_⟩
  intro e he
  simp [f_handleMessage, he]

/-- C7 witness: an action that raises (`exec` returning an error on the
single action of the matching command `!jump`): the task propagates
nothing and the raised error is the one caught and logged. -/
theorem handleMessage_isolates_wit :
    (f_handleMessage (fun _ => some 0) [⟨jumpLower, [(0 : ℕ)]⟩] ⟨viewer1Caps, jumpUpper⟩).2
      = none
    ∧ (f_handleMessage (fun _ => some 0) [⟨jumpLower, [(0 : ℕ)]⟩] ⟨viewer1Caps, jumpUpper⟩).1.2
      = some 0 := by
  have h := handleMessage_isolates ℕ ℕ (fun _ => some 0) [⟨jumpLower, [0]⟩]
    ⟨viewer1Caps, jumpUpper⟩
  exact ⟨h.1, h.2 0 (by decide)⟩

/-! ## Parser lemmas -/

theorem splitLine_append (l rest : List Nat) (h : noCRLF l) :
    splitLine (l ++ 13 :: 10 :: rest) = some (l, rest) := by
  induction l with
  | nil => rfl
  | cons c cs ih =>
    have hc := h c (by simp)
    have hcs : noCRLF cs := fun x hx => h x (by simp [hx])
    simp [splitLine, hc.1, hc.2, ih hcs]

theorem splitLine_no10 (buf : List Nat) (h : ∀ c ∈ buf, c ≠ 10) :
    splitLine buf = none := by
  induction buf with
  | nil => rfl
  | cons c cs ih =>
    have hc := h c (by simp)
    by_cases h13 : c = 13
    · subst h13
      cases cs with
      | nil => rfl
      | cons d ds =>
        have hd : d ≠ 10 := h d (by simp)
        simp [splitLine, hd]
    · simp [splitLine, h13, hc, ih (fun x hx => h x (by simp [hx]))]

theorem tryFrame_frame (l rest : List Nat) (hl : legalLine l) :
    tryFrame (l ++ 13 :: 10 :: rest) = some (frameOf l, rest) := by
  obtain ⟨f, hf⟩ := Option.isSome_iff_exists.mp hl.2
  simp [tryFrame, splitLine_append l rest hl.1, hf, frameOf]

theorem scanAux_no10 (buf : List Nat) : ∀ (fuel : ℕ) (b : Bool),
    (∀ c ∈ buf, c ≠ 10) → scanAux fuel buf b = ([], buf) := by
  induction buf with
  | nil => intro fuel b _; cases fuel <;> rfl
  | cons c cs ih =>
    intro fuel b h
    cases fuel with
    | zero => rfl
    | succ f =>
      have htf : tryFrame (c :: cs) = none := by
        simp [tryFrame, splitLine_no10 _ h]
      have ihc := ih f (c == 10) (fun x hx => h x (by simp [hx]))
      cases b
      · simp [scanAux, ihc]
      · simp [scanAux, htf, ihc]

theorem scanAux_succ_of_match (fuel : ℕ) (buf after : List Nat) (f : Frame)
    (hne : buf ≠ []) (ht : tryFrame buf = some (f, after)) :
    scanAux (fuel + 1) buf true
      = (f :: (scanAux fuel after true).1,
         if (scanAux fuel after true).1.isEmpty then after
         else (scanAux fuel after true).2) := by
  cases buf with
  | nil => exact absurd rfl hne
  | cons c rest => simp [scanAux, ht]

theorem scanAux_render : ∀ (ls : List (List Nat)) (t : List Nat) (fuel : ℕ),
    (∀ l ∈ ls, legalLine l) → (∀ c ∈ t, c ≠ 10) →
    (render ls ++ t).length ≤ fuel →
    scanAux fuel (render ls ++ t) true = (ls.map frameOf, t) := by
  intro ls
  induction ls with
  | nil =>
    intro t fuel _ ht _
    simpa [render] using scanAux_no10 t fuel true ht
  | cons l ls ih =>
    intro t fuel hleg ht hf
    have hl : legalLine l := hleg l (by simp)
    have hls : ∀ x ∈ ls, legalLine x := fun x hx => hleg x (by simp [hx])
    have hbe : render (l :: ls) ++ t = l ++ 13 :: 10 :: (render ls ++ t) := by
      simp [render]
    cases fuel with
    | zero =>
      exfalso
      have hpos : 0 < (render (l :: ls) ++ t).length := by
        rw [hbe]; simp
      omega
    | succ f =>
      rw [hbe] at hf ⊢
      have hne : l ++ 13 :: 10 :: (render ls ++ t) ≠ [] := by simp
      rw [scanAux_succ_of_match f _ _ (frameOf l) hne (tryFrame_frame l _ hl)]
      have hflen : (render ls ++ t).length ≤ f := by
        simp only [List.length_append, List.length_cons] at hf ⊢
        omega
      rw [ih t f hls ht hflen]
      cases ls with
      | nil => simp [render]
      | cons l2 ls2 => simp

theorem parseStep_render (ls : List (List Nat)) (t : List Nat)
    (hleg : ∀ l ∈ ls, legalLine l) (ht : ∀ c ∈ t, c ≠ 10) :
    parseStep [] (render ls ++ t) = (ls.map frameOf, t) := by
  cases ls with
  | nil =>
    cases t with
    | nil => rfl
    | cons c cs =>
      have h1 := scanAux_no10 (c :: cs) (cs.length + 1) true ht
      simp [parseStep, render, findFrames, h1]
  | cons l ls2 =>
    have hsc := scanAux_render (l :: ls2) t ((render (l :: ls2)).length + t.length) hleg ht
      (by simp)
    have hne : (render (l :: ls2) ++ t).isEmpty = false := by
      simp [render]
    simp [parseStep, findFrames, hsc, hne]

theorem parseStep_completes (pending buffer : List Nat) (ls : List (List Nat))
    (hleg : ∀ l ∈ ls, legalLine l) (hne : buffer ≠ []) (hnel : ls ≠ [])
    (heq : pending ++ buffer = render ls) :
    parseStep pending buffer = (ls.map frameOf, []) := by
  have hsc : scanAux (render ls).length (render ls) true = (ls.map frameOf, []) := by
    have h := scanAux_render ls [] (render ls).length hleg (by simp)
      (by simp)
    simpa using h
  have hb : buffer.isEmpty = false := by
    cases buffer with
    | nil => exact absurd rfl hne
    | cons a as => rfl
  cases ls with
  | nil => exact absurd rfl hnel
  | cons l ls2 =>
    simp only [parseStep, hb, Bool.false_eq_true, if_false, heq, findFrames, hsc]
    simp

theorem render_append (a b : List (List Nat)) :
    render (a ++ b) = render a ++ render b := by
  induction a with
  | nil => simp [render]
  | cons l ls ih => simp [render, ih]

/-- C1: for every legal CRLF-terminated byte sequence — frame lines
`ls₁`, then `l`, then `ls₂` — split into two chunks anywhere inside the
frame of `l` (`pre ++ suf = l ++ CRLF` with `suf` nonempty), feeding the
parser the two chunks in two successive polls yields exactly the frame
sequence (same senders, commands, parameters, trailing texts, same
order) of feeding the concatenation in one poll, with the partial buffer
carrying the incomplete tail `pre` between the calls and the final
partial buffers agreeing. -/
theorem parser_split_invariance
    (ls₁ ls₂ : List (List Nat)) (l pre suf c1 c2 : List Nat)
    (h₁ : ∀ s ∈ ls₁, legalLine s) (hl : legalLine l) (h₂ : ∀ s ∈ ls₂, legalLine s)
    (hsuf : suf ≠ []) (hsplit : pre ++ suf = l ++ [13, 10])
    (hc1 : c1 = render ls₁ ++ pre) (hc2 : c2 = suf ++ render ls₂) :
    (parseStep [] c1).1 ++ (parseStep (parseStep [] c1).2 c2).1
        = (parseStep [] (c1 ++ c2)).1
    ∧ (parseStep [] c1).2 = pre
    ∧ (parseStep (parseStep [] c1).2 c2).2 = (parseStep [] (c1 ++ c2)).2 := by
  have hsuflen : 1 ≤ suf.length := by
    cases suf with
    | nil => exact absurd rfl hsuf
    | cons a as => simp
  have hprelen : pre.length ≤ l.length + 1 := by
    have hlen := congrArg List.length hsplit
    simp only [List.length_append, List.length_cons, List.length_nil] at hlen
    omega
  have hpre : pre = (l ++ [13]).take pre.length := by
    have h1 : (pre ++ suf).take pre.length = pre := List.take_left pre suf
    rw [hsplit] at h1
    have h2 : l ++ [13, 10] = (l ++ [13]) ++ [10] := by simp
    rw [h2, List.take_append_eq_append_take] at h1
    have h3 : pre.length - (l ++ [13]).length = 0 := by
      simp only [List.length_append, List.length_cons, List.length_nil]
      omega
    rw [h3] at h1
    simp at h1
    exact h1.symm
  have hpre10 : ∀ c ∈ pre, c ≠ 10 := by
    intro c hc
    rw [hpre] at hc
    have hcm : c ∈ l ++ [13] := List.take_subset _ _ hc
    rcases List.mem_append.mp hcm with h | h
    · exact (hl.1 c h).2
    · simp at h
      omega
  have hr1 : parseStep [] c1 = (ls₁.map frameOf, pre) := by
    rw [hc1]
    exact parseStep_render ls₁ pre h₁ hpre10
  have hc2ne : c2 ≠ [] := by
    rw [hc2]
    cases suf with
    | nil => exact absurd rfl hsuf
    | cons a as => simp
  have hpc2 : pre ++ c2 = render (l :: ls₂) := by
    rw [hc2, ← List.append_assoc, hsplit]
    simp [render]
  have hleg2 : ∀ s ∈ l :: ls₂, legalLine s := by
    intro s hs
    rcases List.mem_cons.mp hs with h | h
    · subst h; exact hl
    · exact h₂ s h
  have hr2 : parseStep pre c2 = ((l :: ls₂).map frameOf, []) :=
    parseStep_completes pre c2 (l :: ls₂) hleg2 hc2ne (by simp) hpc2
  have hone : c1 ++ c2 = render (ls₁ ++ l :: ls₂) := by
    rw [hc1, hc2, render_append]
    have : render ls₁ ++ pre ++ (suf ++ render ls₂)
        = render ls₁ ++ ((pre ++ suf) ++ render ls₂) := by
      simp [List.append_assoc]
    rw [this, hsplit]
    simp [render]
  have hleg3 : ∀ s ∈ ls₁ ++ l :: ls₂, legalLine s := by
    intro s hs
    rcases List.mem_append.mp hs with h | h
    · exact h₁ s h
    · exact hleg2 s h
  have hr3 : parseStep [] (c1 ++ c2) = ((ls₁ ++ l :: ls₂).map frameOf, []) := by
    rw [hone]
    have h := parseStep_render (ls₁ ++ l :: ls₂) [] hleg3 (by simp)
    simpa using h
  refine ⟨?_, ?_, ?_⟩
  · rw [hr1, hr3]
    simp only [hr1]
    rw [hr2]
    simp
  · rw [hr1]
  · simp only [hr1]
    rw [hr2, hr3]

/-- C1 witness: the single frame `:a!b PRIVMSG #c :hi\r\n` split after
`:a!b ` — the first poll yields no frame and keeps the chunk as the
partial buffer, the second poll completes it, and the two-poll frame
sequence equals the one-poll parse of the concatenation. -/
theorem parser_split_invariance_wit :
    (parseStep [] (privPre ++ privSuf)).1
      = [⟨[97], privmsgBytes, [[35, 99]], [104, 105]⟩]
    ∧ ((parseStep [] privPre).1 ++ (parseStep (parseStep [] privPre).2 privSuf).1
          = (parseStep [] (privPre ++ privSuf)).1
       ∧ (parseStep [] privPre).2 = privPre
       ∧ (parseStep (parseStep [] privPre).2 privSuf).2
          = (parseStep [] (privPre ++ privSuf)).2) :=
  ⟨by decide,
   parser_split_invariance [] [] privLineBytes privPre privSuf privPre privSuf
     (by simp) (by decide) (by simp) (by decide) (by decide) (by decide) (by decide)⟩

/-! ## Connection fault handling theorems -/

theorem f_receiveLoop_some (evs : List RecvEvent) (d : ℕ)
    (h : (f_receiveLoop evs).2 = some d) : f_receiveLoop evs = ([], some d) := by
  induction evs with
  | nil => simp [f_receiveLoop] at h
  | cons e rest ih =>
    cases e with
    | timeout => simp [f_receiveLoop] at h
    | errored =>
      simp [f_receiveLoop] at h ⊢
      omega
    | data bs =>
      by_cases hb : bs.isEmpty
      · simp [f_receiveLoop, hb] at h ⊢
        omega
      · rcases hr : f_receiveLoop rest with ⟨buf, d'⟩
        cases d' with
        | none =>
          simp [f_receiveLoop, hb, hr] at h
        | some dd =>
          simp [f_receiveLoop, hb, hr] at h ⊢
          omega

theorem f_receiveLoop_chunks (pre tail : List RecvEvent) (d : ℕ)
    (hpre : ∀ e ∈ pre, e.isChunk = true) (h : (f_receiveLoop tail).2 = some d) :
    f_receiveLoop (pre ++ tail) = ([], some d) := by
  induction pre with
  | nil => simpa using f_receiveLoop_some tail d h
  | cons e pre ih =>
    have he := hpre e (by simp)
    cases e with
    | timeout => simp [RecvEvent.isChunk] at he
    | errored => simp [RecvEvent.isChunk] at he
    | data bs =>
      have hb : bs.isEmpty = false := by
        simpa [RecvEvent.isChunk] using he
      have ihr := ih (fun x hx => hpre x (by simp [hx]))
      simp [f_receiveLoop, hb, ihr]

/-- C8: a zero-byte successful read anywhere in the poll's read loop
(the peer closed the connection) makes that poll reconnect after a
5-second delay and return an empty frame list with a cleared partial
buffer; a read error other than a timeout reconnects after 1 second and
also returns empty; a plain timeout with no bytes returns empty without
any reconnect, leaving the partial buffer untouched. -/
theorem receive_outcomes :
    (∀ (pending : List Nat) (pre evs : List RecvEvent),
        (∀ e ∈ pre, e.isChunk = true) →
        f_receiveAndParseData pending (pre ++ RecvEvent.data [] :: evs)
          = ([], [], some 5))
    ∧ (∀ (pending : List Nat) (pre evs : List RecvEvent),
        (∀ e ∈ pre, e.isChunk = true) →
        f_receiveAndParseData pending (pre ++ RecvEvent.errored :: evs)
          = ([], [], some 1))
    ∧ (∀ (pending : List Nat) (evs : List RecvEvent),
        f_receiveAndParseData pending (RecvEvent.timeout :: evs)
          = ([], pending, none)) := by
  refine ⟨?_, ?_, ?_⟩
  · intro pending pre evs hpre
    have h := f_receiveLoop_chunks pre (RecvEvent.data [] :: evs) 5 hpre (by simp [f_receiveLoop])
    simp [f_receiveAndParseData, h]
  · intro pending pre evs hpre
    have h := f_receiveLoop_chunks pre (RecvEvent.errored :: evs) 1 hpre (by simp [f_receiveLoop])
    simp [f_receiveAndParseData, h]
  · intro pending evs
    rfl

/-- C8 witness: a non-empty read followed by a zero-byte read →
reconnect in 5 s and nothing returned; an immediate read error →
reconnect in 1 s; an immediate timeout → empty result, partial buffer
kept, no reconnect. -/
theorem receive_outcomes_wit :
    f_receiveAndParseData [65] [RecvEvent.data [66], RecvEvent.data []] = ([], [], some 5)
    ∧ f_receiveAndParseData [] [RecvEvent.errored] = ([], [], some 1)
    ∧ f_receiveAndParseData [65] [RecvEvent.timeout] = ([], [65], none) :=
  ⟨receive_outcomes.1 [65] [RecvEvent.data [66]] [] (by decide),
   receive_outcomes.2.1 [] [] [] (by simp),
   receive_outcomes.2.2 [65] []⟩

/-- C9: whenever the login watchdog fires at the end of a receive pass —
no reconnect happened during the read, the login flag is still down
after classifying this poll's frames, and more than `limit` seconds have
passed since the connect attempt — the pass returns the empty message
list (discarding any chat messages parsed in this same poll) and the
state is the fresh reconnect state. -/
theorem watchdog_discards (limit now : ℚ) (st : TwitchState) (evs : List RecvEvent)
    (hrec : (f_receiveAndParseData st.pending evs).2.2 = none)
    (hok : (classifyFrames st.login_ok (f_receiveAndParseData st.pending evs).1).2 = false)
    (hfire : now - st.login_timestamp > limit) :
    (f_twitchReceiveMessages limit st evs now).1 = []
    ∧ (f_twitchReceiveMessages limit st evs now).2 = ⟨[], false, now⟩ := by
  rcases hrpe : f_receiveAndParseData st.pending evs with ⟨frames, pending2, dl⟩
  rw [hrpe] at hrec hok
  simp only at hrec
  subst hrec
  simp only at hok
  simp [f_twitchReceiveMessages, hrpe, hok, hfire]

/-- C9 witness: a poll that parses one `PRIVMSG` frame while the login
was never confirmed and the 3-second window has long passed (connect at
time 0, poll at time 10): the classifier did extract a chat message, yet
the pass returns the empty list. -/
theorem watchdog_discards_wit :
    (classifyFrames false (f_receiveAndParseData []
        [RecvEvent.data (privLineBytes ++ [13, 10]), RecvEvent.timeout]).1).1
      = [⟨[97], [104, 105]⟩]
    ∧ (f_twitchReceiveMessages 3 ⟨[], false, 0⟩
        [RecvEvent.data (privLineBytes ++ [13, 10]), RecvEvent.timeout] 10).1 = [] :=
  ⟨by decide,
   (watchdog_discards 3 10 ⟨[], false, 0⟩
     [RecvEvent.data (privLineBytes ++ [13, 10]), RecvEvent.timeout]
     (by decide) (by decide) (by norm_num)).1⟩
